import Mathlib

/-!
Verification of the collection-store and single-record-store logic of
`app/core/models.py` (ActionList / TaskList / ScheduleList / ImageResource).

The Python classes keep their state in JSON-backed dicts.  We embed:

* a Python `dict` as an insertion-ordered association list `List (PyKey × V)`
  (Python 3.7+ dicts preserve insertion order; `d[k] = v` replaces in place
  when `k` is present and appends otherwise);
* dict keys as `PyKey`: the code mostly uses string keys (`str(i)`), but
  `TaskList.update_task` writes `self.task_list[index] = task` with an `int`
  key, and in Python `0 == "0"` is `False`, so the two key kinds are distinct;
* exceptions (`AttributeError` from `dict.index`, `TypeError` from
  `json.dump` on a non-serializable pydantic object or from item assignment
  on a pydantic object, `KeyError` from a failed lookup) as `Except PyErr`;
* the backing file as a `disk` field updated by the `save_*` methods, plus a
  `saveCount` counter so "the file was rewritten" is observable; a `json.dump`
  that raises mid-write leaves the file in an unusable partial state, which we
  record as `disk = none` for `TaskList` (the only store that can fail to
  serialize, because `update_task` stores the raw `Task` object).

`console_log` is the module-level constant `False`, as in the source.
-/

namespace Models

/-- A Python dict key as used in `models.py`: either a string key (`str(i)`)
or an integer key (written only by `TaskList.update_task`). -/
inductive PyKey where
  | s (str : String)
  | i (int : Int)
deriving DecidableEq, Repr

/-- Python exceptions that the modelled code can raise. -/
inductive PyErr where
  | attrErr
  | typeErr
  | keyErr
deriving DecidableEq, Repr

/-- `str(key)` for a dict key. -/
def pyStrKey : PyKey → String
  | .s str => str
  | .i int => toString int

/-- `str(x)` for an `Optional[int]` field (Python prints `None` for `None`). -/
def pyStrOptInt : Option Int → String
  | some z => toString z
  | none => "None"

/-- `str(x)` for an `Optional[str]` field. -/
def pyStrOptStr : Option String → String
  | some s => s
  | none => "None"

/-- Dict lookup `d[k]` (as an `Option`; `none` corresponds to `KeyError`). -/
def dictGet {K V : Type} [DecidableEq K] (d : List (K × V)) (k : K) : Option V :=
  (d.find? (fun p => p.1 == k)).map (fun p => p.2)

/-- Dict assignment `d[k] = v`: replace in place if the key is present,
append otherwise (Python dicts preserve insertion order). -/
def dictSet {K V : Type} [DecidableEq K] (d : List (K × V)) (k : K) (v : V) :
    List (K × V) :=
  if d.any (fun p => p.1 == k) then
    d.map (fun p => if p.1 == k then (k, v) else p)
  else
    d ++ [(k, v)]

/-- The module constant `console_log = False`. -/
def console_log : Bool := false

/-! ### Injectivity of Python's `str` on natural numbers

The stores key their dicts by `str(id)`, so we need that distinct ids give
distinct keys.  `toString (n : Nat)` is `Nat.repr n = (Nat.toDigits 10 n).asString`;
we show it is injective by exhibiting a left inverse (parsing the digits). -/

/-- One step of parsing a decimal digit string. -/
def parseStep (acc : Nat) (c : Char) : Nat := 10 * acc + (c.toNat - 48)


/-! ### Record types (pydantic models from `models.py`) -/

/-- `Action`: `id: Optional[int]`, `name: str`, `code: List[str]`. -/
structure Action where
  id : Option Int
  name : String
  code : List String
deriving DecidableEq, Repr

/-- `Task`: `id: Optional[int]`, `name: str`, `task_dependency_id: Optional[int]`,
`action_id_list: List[int]`. -/
structure Task where
  id : Option Int
  name : String
  task_dependency_id : Option Int
  action_id_list : List Int
deriving DecidableEq, Repr

/-- `Schedule`: `id: Optional[int]`, `name: str`,
`schedule_dependency_id: Optional[int]`, `task_id_list: List[int]`. -/
structure Schedule where
  id : Option Int
  name : String
  schedule_dependency_id : Option Int
  task_id_list : List Int
deriving DecidableEq, Repr

/-- `Image`: the screen-capture record stored by `ImageResource`. -/
structure Image where
  id : Option String
  width : Option Int
  height : Option Int
  timestamp : Option String
  is_static_position : Option Bool
  x1 : Option Int
  y1 : Option Int
  x2 : Option Int
  y2 : Option Int
  base64str : String
deriving DecidableEq, Repr

/-- A value stored in `TaskList.task_list`: `add_task` stores `task.dict()`
(a plain, JSON-serializable dict), but `update_task` stores the raw pydantic
`Task` object, which `json.dump` cannot serialize and which has neither a
`.get` method nor item assignment. -/
inductive TVal where
  | tdict (t : Task)
  | tobj (t : Task)
deriving DecidableEq, Repr

/-- Whether `json.dump` can serialize a stored task value. -/
def serializableT : TVal → Bool
  | .tdict _ => true
  | .tobj _ => false

/-- `value.get('name')` on a stored task value: works on a dict, raises
`AttributeError` on a raw `Task` object. -/
def tvalGetName : TVal → Except PyErr String
  | .tdict t => .ok t.name
  | .tobj _ => .error .attrErr

/-- The `name` carried by a stored task value (specification-side helper). -/
def tvalName : TVal → String
  | .tdict t => t.name
  | .tobj t => t.name

/-- The `names` accumulation loop of `add_task`:
`for key in self.task_list: names.append(self.task_list[key].get('name'))` —
the first `.get` on a raw `Task` object aborts the call with
`AttributeError`. -/
def collectNames : List (PyKey × TVal) → Except PyErr (List String)
  | [] => .ok []
  | p :: rest =>
    match tvalGetName p.2 with
    | .error e => .error e
    | .ok n =>
      match collectNames rest with
      | .error e => .error e
      | .ok ns => .ok (n :: ns)

/-! ### The shared delete/re-index loop

`delete_action`, `delete_task` and `delete_schedule` contain the textually
identical compaction loop:

```python
new_list = {}
index = 0
for key in self.the_list:
    if key == str(the_id):
        continue
    element = self.the_list[str(key)]
    element["id"] = index
    new_list[str(index)] = element
    index += 1
```

We embed it once, generically in the value type.  `setIdV` models
`element["id"] = index` (it can raise `TypeError` when the element is a raw
pydantic object); a failed lookup `self.the_list[str(key)]` is a `KeyError`. -/

def reindexGo {V : Type} (setIdV : V → Nat → Except PyErr V)
    (orig : List (PyKey × V)) (tidStr : String) :
    List (PyKey × V) → Nat → Except PyErr (List (PyKey × V))
  | [], _ => .ok []
  | (key, _) :: rest, index =>
    if key == PyKey.s tidStr then
      reindexGo setIdV orig tidStr rest index
    else
      match dictGet orig (PyKey.s (pyStrKey key)) with
      | none => .error .keyErr
      | some element =>
        match setIdV element index with
        | .error e => .error e
        | .ok element =>
          match reindexGo setIdV orig tidStr rest (index + 1) with
          | .error e => .error e
          | .ok tail => .ok ((PyKey.s (toString index), element) :: tail)

/-! ### ActionList -/

/-- In-memory state of an `ActionList` plus its backing file.  `disk` is the
parsed content of `action_list.json`; `saveCount` counts completed rewrites of
the file so that "the file was rewritten" is observable in theorems. -/
structure ActionListState where
  action_list : List (PyKey × Action)
  disk : List (PyKey × Action)
  saveCount : Nat
deriving DecidableEq, Repr

/-- Responses returned by `ActionList` methods: `action_obj` dicts
(`{"id": ..., "name": ..., "code": ...}`), `{'Data': msg}` dicts, or the
initial empty `response = {}`. -/
inductive AResp where
  | rObj (id : Option Int) (name : String) (code : List String)
  | rData (msg : String)
  | rEmpty
deriving DecidableEq, Repr

/-- `ActionList.save_action_list`: `json.dump(self.action_list, file)`.
Action values are always plain dicts, so this never fails. -/
def ActionList.save_action_list (s : ActionListState) : ActionListState :=
  { s with disk := s.action_list, saveCount := s.saveCount + 1 }

/-- `ActionList.add_action`.  Returns the state, the caller's (possibly
mutated) `action` argument, and the response. -/
def ActionList.add_action (s : ActionListState) (action : Action) :
    ActionListState × Action × Except PyErr AResp :=
  -- response = {}
  if ¬ s.action_list.isEmpty then
    -- names = [self.action_list[key].get('name') for key in self.action_list]
    let names := s.action_list.map (fun p => p.2.name)
    if action.name ∉ names then
      let action := { action with id := some (s.action_list.length : Int) }
      let s := ActionList.save_action_list
        { s with action_list := dictSet s.action_list (PyKey.s (pyStrOptInt action.id)) action }
      (s, action, .ok (.rObj action.id action.name action.code))
    else if console_log then
      -- print("Action already exists."); response stays {}
      (ActionList.save_action_list s, action, .ok .rEmpty)
    else
      (ActionList.save_action_list s, action, .ok (.rData "Action already exists"))
  else
    let action := { action with id := some 0 }
    let s := ActionList.save_action_list { s with action_list := [(PyKey.s "0", action)] }
    (s, action, .ok (.rObj action.id action.name action.code))

/-- `element["id"] = index` on a stored action dict. -/
def setActionId (a : Action) (i : Nat) : Except PyErr Action :=
  .ok { a with id := some (i : Int) }

/-- `ActionList.delete_action`. -/
def ActionList.delete_action (s : ActionListState) (action_id : Int) :
    ActionListState × Except PyErr AResp :=
  if action_id ≥ (s.action_list.length : Int) ∨ action_id < 0 then
    (s, .ok (.rData "Action does not exist"))
  else
    match reindexGo setActionId s.action_list (toString action_id) s.action_list 0 with
    | .error e => (s, .error e)
    | .ok newList =>
      let s := ActionList.save_action_list { s with action_list := newList }
      (s, .ok (.rData ("Deleted action id: " ++ toString action_id)))

/-! ### TaskList -/

/-- In-memory state of a `TaskList` plus its backing file.  `disk = none`
models a backing file left unusable by a `json.dump` that raised mid-write. -/
structure TaskListState where
  task_list : List (PyKey × TVal)
  disk : Option (List (PyKey × TVal))
  saveCount : Nat
deriving DecidableEq, Repr

/-- Responses returned by `TaskList` methods: a `Task` object, a
`{'Data': msg}` dict, or Python's implicit `None`. -/
inductive TResp where
  | rTask (t : Task)
  | rData (msg : String)
  | rNone
deriving DecidableEq, Repr

/-- `TaskList.save_task_list`: `json.dump(self.task_list, file)`.  Raises
`TypeError` when the dict holds a raw pydantic `Task` object (as stored by
`update_task`); the file is then left partially written (`disk = none`). -/
def TaskList.save_task_list (s : TaskListState) : TaskListState × Except PyErr Unit :=
  if s.task_list.all (fun p => serializableT p.2) then
    ({ s with disk := some s.task_list, saveCount := s.saveCount + 1 }, .ok ())
  else
    ({ s with disk := none }, .error .typeErr)

/-- `TaskList.update_task`: no range check; writes at the *integer* key
`index` (distinct from every string key), stores the raw `Task` object, and
then tries to persist. -/
def TaskList.update_task (s : TaskListState) (index : Int) (task : Task) :
    TaskListState × Except PyErr TResp :=
  let s := { s with task_list := dictSet s.task_list (PyKey.i index) (TVal.tobj task) }
  match TaskList.save_task_list s with
  | (s, .ok _) => (s, .ok (.rTask task))
  | (s, .error e) => (s, .error e)

/-- `TaskList.add_task`.  On a duplicate name the code calls
`self.task_list.index(task.name)`, but dicts have no `.index` method, so it
raises `AttributeError` before mutating anything. -/
def TaskList.add_task (s : TaskListState) (task : Task) :
    TaskListState × Task × Except PyErr TResp :=
  if ¬ s.task_list.isEmpty then
    match collectNames s.task_list with
    | .error e => (s, task, .error e)
    | .ok names =>
      if task.name ∉ names then
        let task := { task with id := some (s.task_list.length : Int) }
        let s := { s with
          task_list := dictSet s.task_list (PyKey.s (pyStrOptInt task.id)) (TVal.tdict task) }
        match TaskList.save_task_list s with
        | (s, .ok _) => (s, task, .ok (.rTask task))
        | (s, .error e) => (s, task, .error e)
      else
        (s, task, .error .attrErr)
  else
    let task := { task with id := some 0 }
    let s := { s with task_list := [(PyKey.s (pyStrOptInt task.id), TVal.tdict task)] }
    match TaskList.save_task_list s with
    | (s, .ok _) => (s, task, .ok (.rData "Task added"))
    | (s, .error e) => (s, task, .error e)

/-- `element["id"] = index` on a stored task value: raises `TypeError` on a
raw `Task` object (pydantic models do not support item assignment). -/
def setTaskValId : TVal → Nat → Except PyErr TVal
  | .tdict t, i => .ok (.tdict { t with id := some (i : Int) })
  | .tobj _, _ => .error .typeErr

/-- `TaskList.delete_task`: no range check, no return value (Python `None`). -/
def TaskList.delete_task (s : TaskListState) (task_id : Int) :
    TaskListState × Except PyErr TResp :=
  match reindexGo setTaskValId s.task_list (toString task_id) s.task_list 0 with
  | .error e => (s, .error e)
  | .ok newList =>
    let s := { s with task_list := newList }
    match TaskList.save_task_list s with
    | (s, .ok _) => (s, .ok .rNone)
    | (s, .error e) => (s, .error e)

/-! ### ScheduleList -/

/-- In-memory state of a `ScheduleList` plus its backing file.  Schedule
values are always plain dicts, so saving never fails. -/
structure ScheduleListState where
  schedule_list : List (PyKey × Schedule)
  disk : List (PyKey × Schedule)
  saveCount : Nat
deriving DecidableEq, Repr

/-- `ScheduleList.save_schedule_list`. -/
def ScheduleList.save_schedule_list (s : ScheduleListState) : ScheduleListState :=
  { s with disk := s.schedule_list, saveCount := s.saveCount + 1 }

/-- `ScheduleList.add_schedule`: returns `None`; on the empty-collection path
the record's id is *not* overwritten (unlike `add_action`/`add_task`), and the
record is keyed by `str(schedule.id)` for whatever id the caller supplied. -/
def ScheduleList.add_schedule (s : ScheduleListState) (schedule : Schedule) :
    ScheduleListState × Schedule × Except PyErr Unit :=
  if ¬ s.schedule_list.isEmpty then
    let names := s.schedule_list.map (fun p => p.2.name)
    if schedule.name ∉ names then
      let schedule := { schedule with id := some (s.schedule_list.length : Int) }
      let s := ScheduleList.save_schedule_list
        { s with
          schedule_list := dictSet s.schedule_list (PyKey.s (pyStrOptInt schedule.id)) schedule }
      (s, schedule, .ok ())
    else
      -- elif console_log: print("Schedule already exists.")  (no mutation)
      (ScheduleList.save_schedule_list s, schedule, .ok ())
  else
    let s := ScheduleList.save_schedule_list
      { s with schedule_list := [(PyKey.s (pyStrOptInt schedule.id), schedule)] }
    (s, schedule, .ok ())

/-- `element["id"] = index` on a stored schedule dict. -/
def setScheduleId (sc : Schedule) (i : Nat) : Except PyErr Schedule :=
  .ok { sc with id := some (i : Int) }

/-- `ScheduleList.delete_schedule`: no range check, returns `None`. -/
def ScheduleList.delete_schedule (s : ScheduleListState) (schedule_id : Int) :
    ScheduleListState × Except PyErr Unit :=
  match reindexGo setScheduleId s.schedule_list (toString schedule_id) s.schedule_list 0 with
  | .error e => (s, .error e)
  | .ok newList =>
    (ScheduleList.save_schedule_list { s with schedule_list := newList }, .ok ())

/-! ### ImageResource (single-record store)

The directory mismatch in the source is preserved: `store_image` writes to
`self.image_dir = os.path.join(resources_dir, 'images')` while `load_image`
reads from `os.path.join(resources_dir, file_name)`.  The filesystem is a map
from path to stored record; `load_image` returns the parsed record, or `none`
for the empty dict `{}` the code returns when the file does not exist. -/

/-- `os.path.join` for the paths used here. -/
def pathJoin (a b : String) : String := a ++ "/" ++ b

/-- The resolved resource root (`<cwd>/resources` or `<cwd>/core/resources`);
its concrete value is irrelevant to the claims, only its relation to
`image_dir` matters. -/
def resources_dir : String := "resources"

/-- `self.image_dir = os.path.join(resources_dir, 'images')`. -/
def image_dir : String := pathJoin resources_dir "images"

/-- `ImageResource.store_image`: writes `<image_dir>/<image.id>.json`
unconditionally and returns `{"data": "Saved image: ..."}`. -/
def ImageResource.store_image (fs : List (String × Image)) (image : Image) :
    List (String × Image) × String :=
  let file_name := pyStrOptStr image.id ++ ".json"
  (dictSet fs (pathJoin image_dir file_name) image, "Saved image: " ++ file_name)

/-- `ImageResource.load_image`: reads `<resources_dir>/<image_id>.json`
(*not* `image_dir`); returns `none` for the `{}` it yields when the file
does not exist. -/
def ImageResource.load_image (fs : List (String × Image)) (image_id : String) :
    Option Image :=
  let file_name := image_id ++ ".json"
  dictGet fs (pathJoin resources_dir file_name)

/-- A sequence of `add_action` calls: the state after inserting each record
of `rs` in order (`foldl` over the list of records). -/
def addActions (s : ActionListState) (rs : List Action) : ActionListState :=
  rs.foldl (fun s r => (ActionList.add_action s r).1) s

/-! ### Dense collections and the compacted result

`denseFrom i [v0, v1, ...]` is the dict `{str(i): v0, str(i+1): v1, ...}`;
a store whose dict is `denseFrom 0 vs` satisfies the dense-id invariant on its
keys.  `specEmit setF vs i` is the dict the re-index loop produces from the
surviving values `vs` starting at position `i`: consecutive decimal keys and
each value's embedded `id` rewritten to its position by `setF`. -/

def denseFrom {V : Type} (i : Nat) : List V → List (PyKey × V)
  | [] => []
  | v :: vs => (PyKey.s (toString i), v) :: denseFrom (i + 1) vs

def specEmit {V : Type} (setF : V → Nat → V) : List V → Nat → List (PyKey × V)
  | [], _ => []
  | v :: vs, idx => (PyKey.s (toString idx), setF v idx) :: specEmit setF vs (idx + 1)

/-- Rewrite every value's embedded id to its position (value-level view of
`specEmit`). -/
def applyIdx {V : Type} (setF : V → Nat → V) : Nat → List V → List V
  | _, [] => []
  | i, v :: vs => setF v i :: applyIdx setF (i + 1) vs

/-- The pure effect of `element["id"] = index` on an action dict. -/
def setActionF (a : Action) (i : Nat) : Action := { a with id := some (i : Int) }

/-- The pure effect of `element["id"] = index` on a stored task value (on a
raw object the real code raises instead; see `setTaskValId`). -/
def setTaskValF : TVal → Nat → TVal
  | .tdict t, i => .tdict { t with id := some (i : Int) }
  | .tobj t, _ => .tobj t

/-- The pure effect of `element["id"] = index` on a schedule dict. -/
def setScheduleF (sc : Schedule) (i : Nat) : Schedule := { sc with id := some (i : Int) }

/-- A dense `ActionList` dict holding `rs` in order, with each stored record's
id equal to its position (the state produced by a fresh insert sequence). -/
def denseActs (rs : List Action) : List (PyKey × Action) := specEmit setActionF rs 0

/-- A dense `TaskList` dict holding `ts` in order as serializable dicts, ids
equal to positions. -/
def denseTasks (ts : List Task) : List (PyKey × TVal) :=
  specEmit setTaskValF (ts.map TVal.tdict) 0

/-- A dense `ScheduleList` dict holding `scs` in order, ids equal to
positions. -/
def denseSchedules (scs : List Schedule) : List (PyKey × Schedule) :=
  specEmit setScheduleF scs 0


/-! ### Concrete sample data used by witnesses and counterexamples -/

def sampleAction0 : Action := ⟨some 0, "a", ["c0"]⟩

def sampleAction1 : Action := ⟨some 1, "b", ["c1"]⟩

def sampleAction2 : Action := ⟨some 2, "c", ["c2"]⟩

def sampleActionDup : Action := ⟨some 9, "a", ["other"]⟩

def sampleTask0 : Task := ⟨some 0, "t", none, [1]⟩

def sampleTask1 : Task := ⟨some 1, "u", none, []⟩

def sampleTaskNew : Task := ⟨some 9, "v", some 0, [2]⟩

def sampleTaskDup : Task := ⟨some 9, "t", some 0, [2]⟩

def sampleSchedule0 : Schedule := ⟨some 0, "s", none, [1]⟩

def sampleSchedule1 : Schedule := ⟨some 1, "r", none, []⟩

def sampleSchedule7 : Schedule := ⟨some 7, "w", none, [1]⟩

def sampleScheduleNone : Schedule := ⟨none, "w", none, [1]⟩

def sampleImage : Image :=
  ⟨some "img0", some 1920, some 1080, some "ts", some true, some 0, some 0, some 1920,
   some 1920, "b64"⟩

theorem digitChar_toNat_of_lt : ∀ m, m < 10 → (Nat.digitChar m).toNat = 48 + m := by
  decide

theorem foldl_parseStep_toDigitsCore :
    ∀ (fuel n : Nat) (ds : List Char), n < fuel →
      List.foldl parseStep 0 (Nat.toDigitsCore 10 fuel n ds) = List.foldl parseStep n ds := by
  intro fuel
  induction fuel with
  | zero => intro n ds h; omega
  | succ f ih =>
    intro n ds h
    show List.foldl parseStep 0
        (if n / 10 = 0 then Nat.digitChar (n % 10) :: ds
         else Nat.toDigitsCore 10 f (n / 10) (Nat.digitChar (n % 10) :: ds)) = _
    by_cases h10 : n / 10 = 0
    · rw [if_pos h10]
      have hn : n < 10 := by omega
      have hmod : n % 10 = n := Nat.mod_eq_of_lt hn
      simp only [List.foldl_cons, parseStep, digitChar_toNat_of_lt (n % 10) (Nat.mod_lt _ (by omega))]
      rw [hmod]
      congr 1
      omega
    · rw [if_neg h10]
      have hdiv : n / 10 < n := Nat.div_lt_self (by omega) (by omega)
      rw [ih (n / 10) _ (by omega)]
      simp only [List.foldl_cons, parseStep, digitChar_toNat_of_lt (n % 10) (Nat.mod_lt _ (by omega))]
      congr 1
      omega

theorem foldl_parseStep_repr (n : Nat) :
    List.foldl parseStep 0 (Nat.toDigits 10 n) = n := by
  have := foldl_parseStep_toDigitsCore (n + 1) n [] (Nat.lt_succ_self n)
  simpa [Nat.toDigits] using this

theorem natToString_injective : Function.Injective (fun n : Nat => toString n) := by
  intro m n h
  have hrepr : Nat.repr m = Nat.repr n := h
  have hd : Nat.toDigits 10 m = Nat.toDigits 10 n := by
    have : (Nat.toDigits 10 m).asString = (Nat.toDigits 10 n).asString := hrepr
    simpa [List.asString, String.ext_iff] using this
  have := foldl_parseStep_repr m
  rw [hd, foldl_parseStep_repr n] at this
  exact this.symm

theorem natToString_inj {m n : Nat} (h : toString m = toString n) : m = n :=
  natToString_injective h

theorem natToString_ne {m n : Nat} (h : m ≠ n) : toString m ≠ toString n :=
  fun he => h (natToString_inj he)

/-- `str` of a nonnegative `Int` agrees with `str` of the `Nat`. -/
theorem toString_intOfNat (k : Nat) : toString ((k : Nat) : Int) = toString k := rfl

/-! `str` of a negative int starts with `'-'`, while `str` of a natural starts
with a decimal digit, so the two can never be equal (needed because
`delete_*` compares dict keys against `str(id)` for a caller-supplied id). -/

theorem toDigitsCore_digits :
    ∀ (fuel n : Nat) (ds : List Char) (c : Char),
      c ∈ Nat.toDigitsCore 10 fuel n ds → c ∈ ds ∨ (48 ≤ c.toNat ∧ c.toNat ≤ 57) := by
  intro fuel
  induction fuel with
  | zero => intro n ds c hc; exact Or.inl hc
  | succ f ih =>
    intro n ds c hc
    have hdig : 48 ≤ (Nat.digitChar (n % 10)).toNat ∧ (Nat.digitChar (n % 10)).toNat ≤ 57 := by
      have h10 : n % 10 < 10 := Nat.mod_lt _ (by omega)
      rw [digitChar_toNat_of_lt (n % 10) h10]
      omega
    revert hc
    show c ∈ (if n / 10 = 0 then Nat.digitChar (n % 10) :: ds
        else Nat.toDigitsCore 10 f (n / 10) (Nat.digitChar (n % 10) :: ds)) → _
    by_cases h10 : n / 10 = 0
    · rw [if_pos h10]
      intro hc
      rcases List.mem_cons.mp hc with hc | hc
      · exact Or.inr (hc ▸ hdig)
      · exact Or.inl hc
    · rw [if_neg h10]
      intro hc
      rcases ih (n / 10) (Nat.digitChar (n % 10) :: ds) c hc with hc | hc
      · rcases List.mem_cons.mp hc with hc | hc
        · exact Or.inr (hc ▸ hdig)
        · exact Or.inl hc
      · exact Or.inr hc

theorem toDigitsCore_ne_nil :
    ∀ (fuel n : Nat) (d : Char) (ds : List Char),
      Nat.toDigitsCore 10 fuel n (d :: ds) ≠ [] := by
  intro fuel
  induction fuel with
  | zero => intro n d ds; simp [Nat.toDigitsCore]
  | succ f ih =>
    intro n d ds
    show (if n / 10 = 0 then Nat.digitChar (n % 10) :: d :: ds
        else Nat.toDigitsCore 10 f (n / 10) (Nat.digitChar (n % 10) :: d :: ds)) ≠ []
    by_cases h10 : n / 10 = 0
    · simp [h10]
    · rw [if_neg h10]; exact ih (n / 10) _ (d :: ds)

theorem toDigits_ne_nil (n : Nat) : Nat.toDigits 10 n ≠ [] := by
  show (if n / 10 = 0 then Nat.digitChar (n % 10) :: []
      else Nat.toDigitsCore 10 n (n / 10) (Nat.digitChar (n % 10) :: [])) ≠ []
  by_cases h10 : n / 10 = 0
  · simp [h10]
  · rw [if_neg h10]; exact toDigitsCore_ne_nil n (n / 10) _ []

theorem toString_int_neg_ne_toString_nat {k : Int} (hk : k < 0) (j : Nat) :
    toString k ≠ toString j := by
  intro h
  rcases k with m | m
  · simp only [Int.ofNat_eq_coe] at hk; omega
  · have hdata : ('-' :: (Nat.toDigits 10 (m + 1))) = Nat.toDigits 10 j := by
      have : ("-" ++ toString (m + 1) : String).data = (toString j : String).data :=
        congrArg String.data h
      simpa [toString, Nat.repr, List.asString, String.ext_iff] using this
    rcases hj : Nat.toDigits 10 j with _ | ⟨c, cs⟩
    · exact toDigits_ne_nil j hj
    · rw [hj] at hdata
      have hcmem : c ∈ Nat.toDigits 10 j := by rw [hj]; exact List.mem_cons_self c cs
      have hcrange := toDigitsCore_digits (j + 1) j [] c hcmem
      have hc : c = '-' := by
        have := congrArg (fun l => l.head?) hdata
        simpa using this.symm
      rcases hcrange with hc' | hc'
      · exact absurd hc' (List.not_mem_nil c)
      · rw [hc] at hc'
        revert hc'
        decide

theorem denseFrom_length {V : Type} : ∀ (vs : List V) (i : Nat),
    (denseFrom i vs).length = vs.length := by
  intro vs
  induction vs with
  | nil => intro i; rfl
  | cons v vs ih => intro i; simp [denseFrom, ih]

theorem specEmit_length {V : Type} (setF : V → Nat → V) : ∀ (vs : List V) (i : Nat),
    (specEmit setF vs i).length = vs.length := by
  intro vs
  induction vs with
  | nil => intro i; rfl
  | cons v vs ih => intro i; simp [specEmit, ih]

theorem specEmit_append {V : Type} (setF : V → Nat → V) :
    ∀ (xs ys : List V) (i : Nat),
      specEmit setF (xs ++ ys) i = specEmit setF xs i ++ specEmit setF ys (i + xs.length) := by
  intro xs
  induction xs with
  | nil => intro ys i; rfl
  | cons x xs ih =>
    intro ys i
    show (PyKey.s (toString i), setF x i) :: specEmit setF (xs ++ ys) (i + 1) = _
    rw [ih ys (i + 1), show (i + 1) + xs.length = i + (xs.length + 1) from by omega]
    rfl

theorem specEmit_eq_denseFrom {V : Type} (setF : V → Nat → V) :
    ∀ (vs : List V) (i : Nat), specEmit setF vs i = denseFrom i (applyIdx setF i vs) := by
  intro vs
  induction vs with
  | nil => intro i; rfl
  | cons v vs ih => intro i; show _ :: _ = _ :: _; rw [ih]

theorem applyIdx_length {V : Type} (setF : V → Nat → V) : ∀ (i : Nat) (vs : List V),
    (applyIdx setF i vs).length = vs.length := by
  intro i vs
  induction vs generalizing i with
  | nil => rfl
  | cons v vs ih => simp [applyIdx, ih]

theorem specEmit_applyIdx {V : Type} (setF : V → Nat → V)
    (hid : ∀ v i, setF (setF v i) i = setF v i) :
    ∀ (vs : List V) (i : Nat),
      specEmit setF (applyIdx setF i vs) i = denseFrom i (applyIdx setF i vs) := by
  intro vs
  induction vs with
  | nil => intro i; rfl
  | cons v vs ih =>
    intro i
    show (PyKey.s (toString i), setF (setF v i) i) :: _ = (PyKey.s (toString i), setF v i) :: _
    rw [hid, ih]

theorem mem_specEmit_key {V : Type} (setF : V → Nat → V) :
    ∀ (vs : List V) (i : Nat) (p : PyKey × V), p ∈ specEmit setF vs i →
      ∃ j, j < vs.length ∧ p.1 = PyKey.s (toString (i + j)) := by
  intro vs
  induction vs with
  | nil => intro i p hp; simp [specEmit] at hp
  | cons v vs ih =>
    intro i p hp
    rcases List.mem_cons.mp hp with hp | hp
    · exact ⟨0, by simp, by rw [hp]; rfl⟩
    · rcases ih (i + 1) p hp with ⟨j, hj, hkey⟩
      exact ⟨j + 1, by simp only [List.length_cons]; omega,
        by rw [hkey, show (i + 1) + j = i + (j + 1) from by omega]⟩

theorem dictGet_cons_self {K V : Type} [DecidableEq K] (k : K) (v : V) (d : List (K × V)) :
    dictGet ((k, v) :: d) k = some v := by
  simp [dictGet, List.find?]

theorem dictGet_cons_ne {K V : Type} [DecidableEq K] {k k' : K} (h : k' ≠ k) (v : V)
    (d : List (K × V)) : dictGet ((k', v) :: d) k = dictGet d k := by
  have hbeq : (k' == k) = false := by simpa using h
  simp [dictGet, List.find?, hbeq]

theorem dictGet_denseFrom {V : Type} :
    ∀ (vs : List V) (i j : Nat) (h : j < vs.length),
      dictGet (denseFrom i vs) (PyKey.s (toString (i + j))) = some (vs.get ⟨j, h⟩) := by
  intro vs
  induction vs with
  | nil => intro i j h; simp at h
  | cons v vs ih =>
    intro i j h
    match j with
    | 0 =>
      show dictGet ((PyKey.s (toString i), v) :: denseFrom (i + 1) vs)
        (PyKey.s (toString (i + 0))) = some v
      rw [Nat.add_zero]
      exact dictGet_cons_self _ _ _
    | j + 1 =>
      have hj : j < vs.length := by simp only [List.length_cons] at h; omega
      show dictGet ((PyKey.s (toString i), v) :: denseFrom (i + 1) vs)
        (PyKey.s (toString (i + (j + 1)))) = some (vs.get ⟨j, hj⟩)
      rw [dictGet_cons_ne (by
        intro hcontra
        have : toString i = toString (i + (j + 1)) := by
          injection hcontra
        have := natToString_inj this
        omega)]
      have := ih (i + 1) j hj
      rwa [show (i + 1) + j = i + (j + 1) from by omega] at this

theorem dictSet_append {K V : Type} [DecidableEq K] (d : List (K × V)) (k : K) (v : V)
    (h : ∀ p ∈ d, p.1 ≠ k) : dictSet d k v = d ++ [(k, v)] := by
  unfold dictSet
  rw [if_neg]
  intro hany
  rw [List.any_eq_true] at hany
  rcases hany with ⟨p, hp, hpk⟩
  exact h p hp (by simpa using hpk)

/-! ### Behaviour of the re-index loop on dense dicts

`reindexGo_post` handles a run of entries none of which matches the deleted
id; `reindexGo_main` walks a dense dict split as `A ++ v :: B` where `v` sits
exactly at the deleted position `|A|`; `reindexGo_dense` packages the result
for a dense dict and an in-range id. -/

theorem reindexGo_post {V : Type} (setIdV : V → Nat → Except PyErr V) (setF : V → Nat → V)
    (orig : List (PyKey × V)) (tidStr : String) :
    ∀ (B : List V) (p idx : Nat),
      (∀ v ∈ B, ∀ i, setIdV v i = .ok (setF v i)) →
      (∀ (j : Nat) (h : j < B.length),
        dictGet orig (PyKey.s (toString (p + j))) = some (B.get ⟨j, h⟩)) →
      (∀ j : Nat, j < B.length → toString (p + j) ≠ tidStr) →
      reindexGo setIdV orig tidStr (denseFrom p B) idx = .ok (specEmit setF B idx) := by
  intro B
  induction B with
  | nil => intro p idx _ _ _; rfl
  | cons v B ih =>
    intro p idx hset hlk hne
    have hkey : (PyKey.s (toString p) == PyKey.s tidStr) = false := by
      have h0 := hne 0 (by simp)
      rw [Nat.add_zero] at h0
      simpa using h0
    have hlk0 : dictGet orig (PyKey.s (toString p)) = some v := by
      have h0 := hlk 0 (by simp)
      rw [Nat.add_zero] at h0
      exact h0
    have hstep := hset v (List.mem_cons_self _ _) idx
    have hih : reindexGo setIdV orig tidStr (denseFrom (p + 1) B) (idx + 1)
        = .ok (specEmit setF B (idx + 1)) := by
      apply ih (p + 1) (idx + 1)
      · intro w hw i; exact hset w (List.mem_cons_of_mem _ hw) i
      · intro j h
        have := hlk (j + 1) (by simp only [List.length_cons]; omega)
        rwa [show p + (j + 1) = (p + 1) + j from by omega] at this
      · intro j h
        have := hne (j + 1) (by simp only [List.length_cons]; omega)
        rwa [show p + (j + 1) = (p + 1) + j from by omega] at this
    show reindexGo setIdV orig tidStr ((PyKey.s (toString p), v) :: denseFrom (p + 1) B) idx = _
    simp only [reindexGo, hkey, Bool.false_eq_true, if_false, pyStrKey, hlk0, hstep, hih]
    rfl

theorem reindexGo_main {V : Type} (setIdV : V → Nat → Except PyErr V) (setF : V → Nat → V)
    (orig : List (PyKey × V)) (v : V) :
    ∀ (A B : List V) (p : Nat),
      (∀ w ∈ A ++ v :: B, ∀ i, setIdV w i = .ok (setF w i)) →
      (∀ (j : Nat) (h : j < (A ++ v :: B).length),
        dictGet orig (PyKey.s (toString (p + j))) = some ((A ++ v :: B).get ⟨j, h⟩)) →
      reindexGo setIdV orig (toString (p + A.length)) (denseFrom p (A ++ v :: B)) p
        = .ok (specEmit setF A p ++ specEmit setF B (p + A.length)) := by
  intro A
  induction A with
  | nil =>
    intro B p hset hlk
    have hkey : (PyKey.s (toString p) == PyKey.s (toString (p + ([] : List V).length))) = true := by
      simp
    have hpost : reindexGo setIdV orig (toString (p + ([] : List V).length))
        (denseFrom (p + 1) B) p = .ok (specEmit setF B p) := by
      apply reindexGo_post setIdV setF orig _ B (p + 1) p
      · intro w hw i; exact hset w (List.mem_cons_of_mem _ hw) i
      · intro j h
        have := hlk (j + 1) (by simp only [List.nil_append, List.length_cons]; omega)
        rwa [show p + (j + 1) = (p + 1) + j from by omega] at this
      · intro j h
        intro hcontra
        have := natToString_inj hcontra
        simp only [List.length_nil, Nat.add_zero] at this
        omega
    show reindexGo setIdV orig (toString (p + ([] : List V).length))
      ((PyKey.s (toString p), v) :: denseFrom (p + 1) B) p = _
    simp only [reindexGo, hkey, if_true, hpost]
    simp [specEmit]
  | cons a A ih =>
    intro B p hset hlk
    have hkey : (PyKey.s (toString p) == PyKey.s (toString (p + (a :: A).length))) = false := by
      simp only [beq_eq_false_iff_ne, ne_eq, PyKey.s.injEq]
      intro hcontra
      have := natToString_inj hcontra
      simp only [List.length_cons] at this
      omega
    have hlk0 : dictGet orig (PyKey.s (toString p)) = some a := by
      have h0 := hlk 0 (by simp)
      rw [Nat.add_zero] at h0
      exact h0
    have hstep := hset a (List.mem_cons_self _ _) p
    have hih : reindexGo setIdV orig (toString ((p + 1) + A.length))
        (denseFrom (p + 1) (A ++ v :: B)) (p + 1)
        = .ok (specEmit setF A (p + 1) ++ specEmit setF B ((p + 1) + A.length)) := by
      apply ih B (p + 1)
      · intro w hw i; exact hset w (List.mem_cons_of_mem _ hw) i
      · intro j h
        have := hlk (j + 1) (by
          simp only [List.cons_append, List.length_cons]
          simp only [List.length_append, List.length_cons] at h ⊢
          omega)
        rwa [show p + (j + 1) = (p + 1) + j from by omega] at this
    rw [show (p + 1) + A.length = p + (a :: A).length from by simp only [List.length_cons]; omega]
      at hih
    show reindexGo setIdV orig (toString (p + (a :: A).length))
      ((PyKey.s (toString p), a) :: denseFrom (p + 1) (A ++ v :: B)) p = _
    simp only [reindexGo, hkey, Bool.false_eq_true, if_false, pyStrKey, hlk0, hstep, hih]
    rfl

theorem drop_eq_get_cons {V : Type} :
    ∀ (vs : List V) (k : Nat) (h : k < vs.length),
      vs.drop k = vs.get ⟨k, h⟩ :: vs.drop (k + 1) := by
  intro vs
  induction vs with
  | nil => intro k h; simp at h
  | cons v vs ih =>
    intro k h
    match k with
    | 0 => rfl
    | k + 1 => exact ih k (by simp only [List.length_cons] at h; omega)

theorem reindexGo_dense {V : Type} (setIdV : V → Nat → Except PyErr V) (setF : V → Nat → V)
    (vs : List V) (k : Nat) (hk : k < vs.length)
    (hset : ∀ w ∈ vs, ∀ i, setIdV w i = Except.ok (setF w i)) :
    reindexGo setIdV (denseFrom 0 vs) (toString k) (denseFrom 0 vs) 0
      = .ok (specEmit setF (vs.take k ++ vs.drop (k + 1)) 0) := by
  obtain ⟨A, v, B, hAB, hA⟩ :
      ∃ (A : List V) (v : V) (B : List V), vs = A ++ v :: B ∧ A.length = k := by
    refine ⟨vs.take k, vs.get ⟨k, hk⟩, vs.drop (k + 1), ?_, ?_⟩
    · rw [← drop_eq_get_cons vs k hk, List.take_append_drop]
    · rw [List.length_take]; omega
  subst hAB
  subst hA
  have htake : (A ++ v :: B).take A.length = A := List.take_left A (v :: B)
  have hdrop : (A ++ v :: B).drop (A.length + 1) = B := by
    rw [← List.drop_drop, List.drop_left]
    rfl
  rw [htake, hdrop, specEmit_append]
  have hmain := reindexGo_main setIdV setF (denseFrom 0 (A ++ v :: B)) v A B 0 hset
    (fun j h => dictGet_denseFrom (A ++ v :: B) 0 j h)
  rw [Nat.zero_add] at hmain
  rw [show (0 : Nat) + A.length = A.length from by omega]
  exact hmain

/-! ### Helper lemmas about dense task/schedule collections -/

theorem specEmit_all_serializable :
    ∀ (l : List TVal), (∀ v ∈ l, ∃ t, v = TVal.tdict t) →
      ∀ i, ((specEmit setTaskValF l i).all (fun p => serializableT p.2)) = true := by
  intro l
  induction l with
  | nil => intro _ i; rfl
  | cons v l ih =>
    intro hl i
    rcases hl v (List.mem_cons_self _ _) with ⟨t, ht⟩
    subst ht
    simp only [specEmit, List.all_cons, Bool.and_eq_true]
    exact ⟨rfl, ih (fun w hw => hl w (List.mem_cons_of_mem _ hw)) (i + 1)⟩

theorem mem_applyIdx_tdict :
    ∀ (ts : List Task) (i : Nat) (v : TVal),
      v ∈ applyIdx setTaskValF i (ts.map TVal.tdict) → ∃ t, v = TVal.tdict t := by
  intro ts
  induction ts with
  | nil => intro i v hv; simp [applyIdx] at hv
  | cons t ts ih =>
    intro i v hv
    rcases List.mem_cons.mp hv with hv | hv
    · exact ⟨_, hv⟩
    · exact ih (i + 1) v hv

theorem denseFrom_all {V : Type} (f : V → Bool) :
    ∀ (l : List V) (i : Nat), ((denseFrom i l).all (fun p => f p.2)) = l.all f := by
  intro l
  induction l with
  | nil => intro i; rfl
  | cons v l ih => intro i; simp only [denseFrom, List.all_cons, ih]

/-! ### C2 — delete-compaction -/

/-- C2: deleting id `k` (with `k < n`) from a collection with dense string
keys `0..n-1` — state `denseFrom 0 vs` — yields, for each of
`ActionList.delete_action`, `TaskList.delete_task`, and
`ScheduleList.delete_schedule`, exactly the collection
`specEmit setF (vs.take k ++ vs.drop (k+1)) 0`: its size is `n-1`, its keys
are exactly `0..n-2` in order, every record formerly at id `> k` now sits at
`id - 1` with its relative order preserved, and every surviving record's
embedded `id` field is rewritten to its new position; the compacted
collection is persisted to the backing file.  (For `TaskList` the stored
values must be the serializable dicts `add_task` writes.) -/
theorem claim_C2_delete_compaction :
    (∀ (vs : List Action) (k : Nat) (d : List (PyKey × Action)) (c : Nat),
      k < vs.length →
      ActionList.delete_action ⟨denseFrom 0 vs, d, c⟩ (k : Int)
        = (⟨specEmit setActionF (vs.take k ++ vs.drop (k + 1)) 0,
            specEmit setActionF (vs.take k ++ vs.drop (k + 1)) 0, c + 1⟩,
           .ok (.rData ("Deleted action id: " ++ toString k)))
      ∧ (specEmit setActionF (vs.take k ++ vs.drop (k + 1)) 0).length = vs.length - 1)
    ∧ (∀ (tvs : List TVal) (k : Nat) (d : Option (List (PyKey × TVal))) (c : Nat),
      k < tvs.length → (∀ v ∈ tvs, ∃ t, v = TVal.tdict t) →
      TaskList.delete_task ⟨denseFrom 0 tvs, d, c⟩ (k : Int)
        = (⟨specEmit setTaskValF (tvs.take k ++ tvs.drop (k + 1)) 0,
            some (specEmit setTaskValF (tvs.take k ++ tvs.drop (k + 1)) 0), c + 1⟩,
           .ok .rNone)
      ∧ (specEmit setTaskValF (tvs.take k ++ tvs.drop (k + 1)) 0).length = tvs.length - 1)
    ∧ (∀ (svs : List Schedule) (k : Nat) (d : List (PyKey × Schedule)) (c : Nat),
      k < svs.length →
      ScheduleList.delete_schedule ⟨denseFrom 0 svs, d, c⟩ (k : Int)
        = (⟨specEmit setScheduleF (svs.take k ++ svs.drop (k + 1)) 0,
            specEmit setScheduleF (svs.take k ++ svs.drop (k + 1)) 0, c + 1⟩,
           .ok ())
      ∧ (specEmit setScheduleF (svs.take k ++ svs.drop (k + 1)) 0).length = svs.length - 1) := by
  refine ⟨?_, ?_, ?_⟩
  · intro vs k d c hk
    refine ⟨?_, ?_⟩
    · unfold ActionList.delete_action
      rw [if_neg (by
        rw [denseFrom_length vs 0]
        omega)]
      rw [toString_intOfNat k,
        reindexGo_dense setActionId setActionF vs k hk (fun w _ i => rfl)]
      rfl
    · rw [specEmit_length, List.length_append, List.length_take, List.length_drop]
      omega
  · intro tvs k d c hk htd
    have hset : ∀ w ∈ tvs, ∀ i, setTaskValId w i = Except.ok (setTaskValF w i) := by
      intro w hw i
      rcases htd w hw with ⟨t, ht⟩
      subst ht
      rfl
    have hser : ((specEmit setTaskValF (tvs.take k ++ tvs.drop (k + 1)) 0).all
        (fun p => serializableT p.2)) = true := by
      apply specEmit_all_serializable
      intro v hv
      rcases List.mem_append.mp hv with hv | hv
      · exact htd v (List.take_subset k tvs hv)
      · exact htd v (List.drop_subset (k + 1) tvs hv)
    refine ⟨?_, ?_⟩
    · have hsave : TaskList.save_task_list
          ⟨specEmit setTaskValF (tvs.take k ++ tvs.drop (k + 1)) 0, d, c⟩
          = (⟨specEmit setTaskValF (tvs.take k ++ tvs.drop (k + 1)) 0,
              some (specEmit setTaskValF (tvs.take k ++ tvs.drop (k + 1)) 0), c + 1⟩,
             Except.ok ()) := by
        unfold TaskList.save_task_list
        rw [if_pos hser]
      unfold TaskList.delete_task
      rw [toString_intOfNat k,
        reindexGo_dense setTaskValId setTaskValF tvs k hk hset]
      show (match TaskList.save_task_list
          ⟨specEmit setTaskValF (tvs.take k ++ tvs.drop (k + 1)) 0, d, c⟩ with
        | (s, .ok _) => (s, Except.ok TResp.rNone)
        | (s, .error e) => (s, Except.error e)) = _
      rw [hsave]
    · rw [specEmit_length, List.length_append, List.length_take, List.length_drop]
      omega
  · intro svs k d c hk
    refine ⟨?_, ?_⟩
    · unfold ScheduleList.delete_schedule
      rw [toString_intOfNat k,
        reindexGo_dense setScheduleId setScheduleF svs k hk (fun w _ i => rfl)]
      rfl
    · rw [specEmit_length, List.length_append, List.length_take, List.length_drop]
      omega

/-- C2 witness: the three parts of `claim_C2_delete_compaction` at concrete
inputs (delete id 1 from a 3-element `ActionList`, id 0 from a 2-element
`TaskList`, id 1 from a 2-element `ScheduleList`). -/
theorem claim_C2_witness :
    (ActionList.delete_action
        ⟨denseFrom 0 [sampleAction0, sampleAction1, sampleAction2], [], 0⟩ ((1 : Nat) : Int)
      = (⟨specEmit setActionF ([sampleAction0, sampleAction1, sampleAction2].take 1 ++
            [sampleAction0, sampleAction1, sampleAction2].drop 2) 0,
          specEmit setActionF ([sampleAction0, sampleAction1, sampleAction2].take 1 ++
            [sampleAction0, sampleAction1, sampleAction2].drop 2) 0, 1⟩,
         .ok (.rData ("Deleted action id: " ++ toString (1 : Nat)))))
    ∧ (TaskList.delete_task
        ⟨denseFrom 0 [TVal.tdict sampleTask0, TVal.tdict sampleTask1], none, 0⟩ ((0 : Nat) : Int)
      = (⟨specEmit setTaskValF ([TVal.tdict sampleTask0, TVal.tdict sampleTask1].take 0 ++
            [TVal.tdict sampleTask0, TVal.tdict sampleTask1].drop 1) 0,
          some (specEmit setTaskValF ([TVal.tdict sampleTask0, TVal.tdict sampleTask1].take 0 ++
            [TVal.tdict sampleTask0, TVal.tdict sampleTask1].drop 1) 0), 1⟩,
         .ok .rNone))
    ∧ (ScheduleList.delete_schedule
        ⟨denseFrom 0 [sampleSchedule0, sampleSchedule1], [], 0⟩ ((1 : Nat) : Int)
      = (⟨specEmit setScheduleF ([sampleSchedule0, sampleSchedule1].take 1 ++
            [sampleSchedule0, sampleSchedule1].drop 2) 0,
          specEmit setScheduleF ([sampleSchedule0, sampleSchedule1].take 1 ++
            [sampleSchedule0, sampleSchedule1].drop 2) 0, 1⟩,
         .ok ())) :=
  ⟨(claim_C2_delete_compaction.1 [sampleAction0, sampleAction1, sampleAction2] 1 [] 0
      (by decide)).1,
   (claim_C2_delete_compaction.2.1 [TVal.tdict sampleTask0, TVal.tdict sampleTask1] 0 none 0
      (by decide) (by
        intro v hv
        rcases List.mem_cons.mp hv with hv | hv
        · exact ⟨sampleTask0, hv⟩
        · rcases List.mem_cons.mp hv with hv | hv
          · exact ⟨sampleTask1, hv⟩
          · exact absurd hv (List.not_mem_nil v))).1,
   (claim_C2_delete_compaction.2.2 [sampleSchedule0, sampleSchedule1] 1 [] 0 (by decide)).1⟩

/-! ### C5 — out-of-range delete -/

/-- C5 (amended): for an id outside the dense range, `ActionList.delete_action`
returns the `{'Data': 'Action does not exist'}` sentinel and leaves the state
entirely untouched (it returns before the file write).  `TaskList.delete_task`
and `ScheduleList.delete_schedule`, however, perform no range check and return
no NotFound signal: the loop simply matches nothing, so they rebuild the whole
collection — a no-op on a dense collection whose embedded ids equal their
positions — rewrite the backing file, and return Python's `None`. -/
theorem claim_C5_amended :
    (∀ (s : ActionListState) (k : Int),
      (k ≥ (s.action_list.length : Int) ∨ k < 0) →
      ActionList.delete_action s k = (s, .ok (.rData "Action does not exist")))
    ∧ (∀ (ts : List Task) (k : Int) (d : Option (List (PyKey × TVal))) (c : Nat),
      (k ≥ (ts.length : Int) ∨ k < 0) →
      TaskList.delete_task ⟨denseTasks ts, d, c⟩ k
        = (⟨denseTasks ts, some (denseTasks ts), c + 1⟩, .ok .rNone))
    ∧ (∀ (scs : List Schedule) (k : Int) (d : List (PyKey × Schedule)) (c : Nat),
      (k ≥ (scs.length : Int) ∨ k < 0) →
      ScheduleList.delete_schedule ⟨denseSchedules scs, d, c⟩ k
        = (⟨denseSchedules scs, denseSchedules scs, c + 1⟩, .ok ())) := by
  refine ⟨?_, ?_, ?_⟩
  · intro s k hout
    unfold ActionList.delete_action
    rw [if_pos hout]
  · intro ts k d c hout
    have hdense : denseTasks ts
        = denseFrom 0 (applyIdx setTaskValF 0 (ts.map TVal.tdict)) := by
      unfold denseTasks
      rw [specEmit_eq_denseFrom]
    have hlen : (applyIdx setTaskValF 0 (ts.map TVal.tdict)).length = ts.length := by
      rw [applyIdx_length, List.length_map]
    have hpost : reindexGo setTaskValId
        (denseFrom 0 (applyIdx setTaskValF 0 (ts.map TVal.tdict))) (toString k)
        (denseFrom 0 (applyIdx setTaskValF 0 (ts.map TVal.tdict))) 0
        = .ok (specEmit setTaskValF (applyIdx setTaskValF 0 (ts.map TVal.tdict)) 0) := by
      apply reindexGo_post
      · intro w hw i
        rcases mem_applyIdx_tdict ts 0 w hw with ⟨t, ht⟩
        subst ht
        rfl
      · intro j h
        exact dictGet_denseFrom _ 0 j h
      · intro j hj hcontra
        rw [hlen] at hj
        rcases k with m | m
        · have : (0 + j : Nat) = m := natToString_inj hcontra
          simp only [Int.ofNat_eq_coe] at hout
          omega
        · exact toString_int_neg_ne_toString_nat (Int.negSucc_lt_zero m) (0 + j) hcontra.symm
    have hemit : specEmit setTaskValF (applyIdx setTaskValF 0 (ts.map TVal.tdict)) 0
        = denseFrom 0 (applyIdx setTaskValF 0 (ts.map TVal.tdict)) :=
      specEmit_applyIdx setTaskValF (fun v i => by cases v <;> rfl) (ts.map TVal.tdict) 0
    have hser : ((denseFrom 0 (applyIdx setTaskValF 0 (ts.map TVal.tdict))).all
        (fun p => serializableT p.2)) = true := by
      rw [denseFrom_all, List.all_eq_true]
      intro v hv
      rcases mem_applyIdx_tdict ts 0 v hv with ⟨t, ht⟩
      subst ht
      rfl
    have hsave : TaskList.save_task_list
        ⟨denseFrom 0 (applyIdx setTaskValF 0 (ts.map TVal.tdict)), d, c⟩
        = (⟨denseFrom 0 (applyIdx setTaskValF 0 (ts.map TVal.tdict)),
            some (denseFrom 0 (applyIdx setTaskValF 0 (ts.map TVal.tdict))), c + 1⟩,
           Except.ok ()) := by
      unfold TaskList.save_task_list
      rw [if_pos hser]
    rw [hdense]
    unfold TaskList.delete_task
    rw [hpost, hemit]
    show (match TaskList.save_task_list
        ⟨denseFrom 0 (applyIdx setTaskValF 0 (ts.map TVal.tdict)), d, c⟩ with
      | (s, .ok _) => (s, Except.ok TResp.rNone)
      | (s, .error e) => (s, Except.error e)) = _
    rw [hsave]
  · intro scs k d c hout
    have hdense : denseSchedules scs = denseFrom 0 (applyIdx setScheduleF 0 scs) := by
      unfold denseSchedules
      rw [specEmit_eq_denseFrom]
    have hlen : (applyIdx setScheduleF 0 scs).length = scs.length :=
      applyIdx_length setScheduleF 0 scs
    have hpost : reindexGo setScheduleId (denseFrom 0 (applyIdx setScheduleF 0 scs))
        (toString k) (denseFrom 0 (applyIdx setScheduleF 0 scs)) 0
        = .ok (specEmit setScheduleF (applyIdx setScheduleF 0 scs) 0) := by
      apply reindexGo_post
      · intro w _ i
        rfl
      · intro j h
        exact dictGet_denseFrom _ 0 j h
      · intro j hj hcontra
        rw [hlen] at hj
        rcases k with m | m
        · have : (0 + j : Nat) = m := natToString_inj hcontra
          simp only [Int.ofNat_eq_coe] at hout
          omega
        · exact toString_int_neg_ne_toString_nat (Int.negSucc_lt_zero m) (0 + j) hcontra.symm
    have hemit : specEmit setScheduleF (applyIdx setScheduleF 0 scs) 0
        = denseFrom 0 (applyIdx setScheduleF 0 scs) :=
      specEmit_applyIdx setScheduleF (fun v i => rfl) scs 0
    rw [hdense]
    unfold ScheduleList.delete_schedule
    rw [hpost, hemit]
    rfl

/-- C5 witness: the three parts of `claim_C5_amended` at concrete inputs
(id 5 against a 1-element `ActionList`, a 1-element dense `TaskList`, and a
1-element dense `ScheduleList`). -/
theorem claim_C5_witness :
    (ActionList.delete_action ⟨denseFrom 0 [sampleAction0], [], 3⟩ 5
      = (⟨denseFrom 0 [sampleAction0], [], 3⟩, .ok (.rData "Action does not exist")))
    ∧ (TaskList.delete_task ⟨denseTasks [sampleTask0], none, 0⟩ 5
      = (⟨denseTasks [sampleTask0], some (denseTasks [sampleTask0]), 1⟩, .ok .rNone))
    ∧ (ScheduleList.delete_schedule ⟨denseSchedules [sampleSchedule0], [], 0⟩ 5
      = (⟨denseSchedules [sampleSchedule0], denseSchedules [sampleSchedule0], 1⟩, .ok ())) :=
  ⟨claim_C5_amended.1 ⟨denseFrom 0 [sampleAction0], [], 3⟩ 5 (by decide),
   claim_C5_amended.2.1 [sampleTask0] 5 none 0 (by decide),
   claim_C5_amended.2.2 [sampleSchedule0] 5 [] 0 (by decide)⟩

/-- C5 counterexample: `TaskList.delete_task` on a dense 1-element collection
with the out-of-range id 5 does *not* return a NotFound result: it returns
Python's `None` (`TResp.rNone`, not a `{'Data': ...}` sentinel like
`ActionList`'s), and it does re-run the re-index loop and rewrite the backing
file (`saveCount` goes from 0 to 1), contradicting the claim that an
out-of-range delete returns NotFound and does not reindex anything. -/
theorem claim_C5_counterexample :
    (TaskList.delete_task ⟨denseTasks [sampleTask0], none, 0⟩ 5).2 = .ok TResp.rNone
    ∧ (TaskList.delete_task ⟨denseTasks [sampleTask0], none, 0⟩ 5).2
        ≠ .ok (TResp.rData "Task does not exist")
    ∧ (TaskList.delete_task ⟨denseTasks [sampleTask0], none, 0⟩ 5).1.saveCount = 1 := by
  have h0 : (TaskList.delete_task ⟨denseTasks [sampleTask0], none, 0⟩ 5).2
      = Except.ok TResp.rNone := rfl
  refine ⟨h0, ?_, rfl⟩
  rw [h0]
  intro h
  injection h with h2
  injection h2

/-! ### C1 / C9 — duplicate-name add -/

theorem collectNames_tdict :
    ∀ (l : List (PyKey × TVal)), (∀ v ∈ l, ∃ u, v.2 = TVal.tdict u) →
      collectNames l = .ok (l.map (fun p => tvalName p.2)) := by
  intro l
  induction l with
  | nil => intro _; rfl
  | cons p l ih =>
    intro h
    rcases h p (List.mem_cons_self _ _) with ⟨u, hu⟩
    show (match tvalGetName p.2 with
      | Except.error e => (Except.error e : Except PyErr (List String))
      | Except.ok n =>
        match collectNames l with
        | Except.error e => Except.error e
        | Except.ok ns => Except.ok (n :: ns)) = _
    rw [hu, ih (fun w hw => h w (List.mem_cons_of_mem _ hw))]
    simp only [tvalGetName, List.map_cons, hu, tvalName]

theorem add_action_dup (s : ActionListState) (a : Action)
    (hne : s.action_list ≠ []) (hmem : a.name ∈ s.action_list.map (fun p => p.2.name)) :
    ActionList.add_action s a
      = ({ s with disk := s.action_list, saveCount := s.saveCount + 1 }, a,
         .ok (.rData "Action already exists")) := by
  have hemp : s.action_list.isEmpty = false := by
    cases hl : s.action_list with
    | nil => exact absurd hl hne
    | cons p l => rfl
  simp [ActionList.add_action, ActionList.save_action_list, hemp, hmem, console_log]

theorem add_task_dup (s : TaskListState) (t : Task)
    (hne : s.task_list ≠ []) (htd : ∀ v ∈ s.task_list, ∃ u, v.2 = TVal.tdict u)
    (hmem : t.name ∈ s.task_list.map (fun p => tvalName p.2)) :
    TaskList.add_task s t = (s, t, .error .attrErr) := by
  have hemp : s.task_list.isEmpty = false := by
    cases hl : s.task_list with
    | nil => exact absurd hl hne
    | cons p l => rfl
  have hnames := collectNames_tdict s.task_list htd
  simp [TaskList.add_task, hemp, hnames, hmem]

theorem add_schedule_dup (s : ScheduleListState) (sc : Schedule)
    (hne : s.schedule_list ≠ [])
    (hmem : sc.name ∈ s.schedule_list.map (fun p => p.2.name)) :
    ScheduleList.add_schedule s sc
      = ({ s with disk := s.schedule_list, saveCount := s.saveCount + 1 }, sc, .ok ()) := by
  have hemp : s.schedule_list.isEmpty = false := by
    cases hl : s.schedule_list with
    | nil => exact absurd hl hne
    | cons p l => rfl
  simp [ScheduleList.add_schedule, ScheduleList.save_schedule_list, hemp, hmem]

/-- C1 (amended): adding a record whose name matches an existing one never
updates the stored record in place.  `ActionList.add_action` leaves the
collection unchanged and returns `{'Data': 'Action already exists'}`;
`ScheduleList.add_schedule` leaves the collection unchanged and returns
`None`; and `TaskList.add_task`'s intended update path raises
`AttributeError` (`self.task_list.index(task.name)` called on a dict) before
mutating or persisting anything.  In every case the collection — and hence
its size — is unchanged, and the matching record is not replaced. -/
theorem claim_C1_amended :
    (∀ (s : ActionListState) (a : Action),
      s.action_list ≠ [] → a.name ∈ s.action_list.map (fun p => p.2.name) →
      (ActionList.add_action s a).1.action_list = s.action_list
      ∧ (ActionList.add_action s a).2.2 = .ok (.rData "Action already exists"))
    ∧ (∀ (s : TaskListState) (t : Task),
      s.task_list ≠ [] → (∀ v ∈ s.task_list, ∃ u, v.2 = TVal.tdict u) →
      t.name ∈ s.task_list.map (fun p => tvalName p.2) →
      TaskList.add_task s t = (s, t, .error .attrErr))
    ∧ (∀ (s : ScheduleListState) (sc : Schedule),
      s.schedule_list ≠ [] → sc.name ∈ s.schedule_list.map (fun p => p.2.name) →
      (ScheduleList.add_schedule s sc).1.schedule_list = s.schedule_list
      ∧ (ScheduleList.add_schedule s sc).2.2 = .ok ()) := by
  refine ⟨?_, ?_, ?_⟩
  · intro s a hne hmem
    rw [add_action_dup s a hne hmem]
    exact ⟨rfl, rfl⟩
  · intro s t hne htd hmem
    exact add_task_dup s t hne htd hmem
  · intro s sc hne hmem
    rw [add_schedule_dup s sc hne hmem]
    exact ⟨rfl, rfl⟩

/-- C1 witness: the three parts of `claim_C1_amended` at concrete inputs. -/
theorem claim_C1_witness :
    ((ActionList.add_action ⟨denseFrom 0 [sampleAction0], [], 0⟩ sampleActionDup).1.action_list
        = denseFrom 0 [sampleAction0]
      ∧ (ActionList.add_action ⟨denseFrom 0 [sampleAction0], [], 0⟩ sampleActionDup).2.2
        = .ok (.rData "Action already exists"))
    ∧ (TaskList.add_task ⟨[(PyKey.s "0", TVal.tdict sampleTask0)], none, 0⟩ sampleTaskDup
        = (⟨[(PyKey.s "0", TVal.tdict sampleTask0)], none, 0⟩, sampleTaskDup, .error .attrErr))
    ∧ ((ScheduleList.add_schedule ⟨denseSchedules [sampleSchedule0], [], 0⟩
          ⟨some 9, "s", none, []⟩).1.schedule_list = denseSchedules [sampleSchedule0]
      ∧ (ScheduleList.add_schedule ⟨denseSchedules [sampleSchedule0], [], 0⟩
          ⟨some 9, "s", none, []⟩).2.2 = .ok ()) :=
  ⟨claim_C1_amended.1 ⟨denseFrom 0 [sampleAction0], [], 0⟩ sampleActionDup (by decide) (by decide),
   claim_C1_amended.2.1 ⟨[(PyKey.s "0", TVal.tdict sampleTask0)], none, 0⟩ sampleTaskDup
     (by decide)
     (by
       intro v hv
       rcases List.mem_cons.mp hv with hv | hv
       · exact ⟨sampleTask0, by rw [hv]⟩
       · exact absurd hv (List.not_mem_nil v))
     (by decide),
   claim_C1_amended.2.2 ⟨denseSchedules [sampleSchedule0], [], 0⟩ ⟨some 9, "s", none, []⟩
     (by decide) (by decide)⟩

/-- C1 counterexample: with `{"0": {id: 0, name: "a", code: ["c0"]}}` stored,
adding `{id: 9, name: "a", code: ["other"]}` does *not* update record 0 in
place: the collection is left exactly unchanged (the stored record still has
`code = ["c0"]`, not the caller's `["other"]`), and the call returns the
already-exists sentinel rather than the updated record, refuting the claimed
upsert-by-name update for `ActionList.add_action`. -/
theorem claim_C1_counterexample :
    (ActionList.add_action ⟨denseFrom 0 [sampleAction0], denseFrom 0 [sampleAction0], 1⟩
        sampleActionDup).1.action_list = denseFrom 0 [sampleAction0]
    ∧ dictGet (ActionList.add_action
        ⟨denseFrom 0 [sampleAction0], denseFrom 0 [sampleAction0], 1⟩
        sampleActionDup).1.action_list (PyKey.s "0") = some sampleAction0
    ∧ sampleAction0 ≠ { sampleActionDup with id := some 0 }
    ∧ (ActionList.add_action ⟨denseFrom 0 [sampleAction0], denseFrom 0 [sampleAction0], 1⟩
        sampleActionDup).2.2 = .ok (.rData "Action already exists") :=
  ⟨rfl, rfl, by decide, rfl⟩

/-- C9: when `ActionList.add_action` is called with a record whose name is
already present, the in-memory collection is left exactly unchanged, the call
returns the sentinel `{'Data': 'Action already exists'}` (with the module
constant `console_log = False`, as in the source), and the backing file is
still rewritten with the unchanged contents. -/
theorem claim_C9_duplicate_add (s : ActionListState) (a : Action)
    (hne : s.action_list ≠ []) (hmem : a.name ∈ s.action_list.map (fun p => p.2.name)) :
    (ActionList.add_action s a).1.action_list = s.action_list
    ∧ (ActionList.add_action s a).2.2 = .ok (.rData "Action already exists")
    ∧ (ActionList.add_action s a).1.saveCount = s.saveCount + 1
    ∧ (ActionList.add_action s a).1.disk = s.action_list := by
  rw [add_action_dup s a hne hmem]
  exact ⟨rfl, rfl, rfl, rfl⟩

/-- C9 witness: `claim_C9_duplicate_add` at a concrete input (duplicate name
`"a"` against a one-record store whose on-disk copy starts out stale). -/
theorem claim_C9_witness :
    (ActionList.add_action ⟨denseFrom 0 [sampleAction0], [], 7⟩ sampleActionDup).1.action_list
      = denseFrom 0 [sampleAction0]
    ∧ (ActionList.add_action ⟨denseFrom 0 [sampleAction0], [], 7⟩ sampleActionDup).2.2
      = .ok (.rData "Action already exists")
    ∧ (ActionList.add_action ⟨denseFrom 0 [sampleAction0], [], 7⟩ sampleActionDup).1.saveCount
      = 8
    ∧ (ActionList.add_action ⟨denseFrom 0 [sampleAction0], [], 7⟩ sampleActionDup).1.disk
      = denseFrom 0 [sampleAction0] :=
  claim_C9_duplicate_add ⟨denseFrom 0 [sampleAction0], [], 7⟩ sampleActionDup
    (by decide) (by decide)

/-! ### C6 — a sequence of fresh inserts builds the dense collection -/

theorem specEmit_map_name :
    ∀ (rs : List Action) (i : Nat),
      (specEmit setActionF rs i).map (fun p => p.2.name) = rs.map Action.name := by
  intro rs
  induction rs with
  | nil => intro i; rfl
  | cons r rs ih => intro i; simp [specEmit, setActionF, ih]

/-- One fresh-name insert into a dense `ActionList`: the record is assigned
`id = n`, stored at key `str n`, the state is persisted, the caller's record
is mutated, and the `action_obj` response is returned. -/
theorem add_action_fresh (rs : List Action) (a : Action) (d : List (PyKey × Action)) (c : Nat)
    (hname : a.name ∉ rs.map Action.name) :
    ActionList.add_action ⟨denseActs rs, d, c⟩ a
      = (⟨denseActs (rs ++ [a]), denseActs (rs ++ [a]), c + 1⟩,
         { a with id := some (rs.length : Int) },
         .ok (.rObj (some (rs.length : Int)) a.name a.code)) := by
  have happend : denseActs (rs ++ [a])
      = denseActs rs ++ [(PyKey.s (toString rs.length), setActionF a rs.length)] := by
    unfold denseActs
    rw [specEmit_append, Nat.zero_add]
    rfl
  cases rs with
  | nil => rfl
  | cons head tail =>
    have hkeyfresh : ∀ p ∈ denseActs (head :: tail),
        p.1 ≠ PyKey.s (toString (head :: tail).length) := by
      intro p hp
      rcases mem_specEmit_key setActionF (head :: tail) 0 p hp with ⟨j, hj, hkey⟩
      rw [hkey]
      intro hcontra
      have h1 : toString (0 + j) = toString (head :: tail).length := by
        injection hcontra
      have h2 := natToString_inj h1
      simp only [List.length_cons] at h2 hj
      omega
    have hdset : dictSet (denseActs (head :: tail))
        (PyKey.s (toString (head :: tail).length))
        { a with id := some (((head :: tail).length : Nat) : Int) }
        = denseActs (head :: tail) ++ [(PyKey.s (toString (head :: tail).length),
            setActionF a (head :: tail).length)] :=
      dictSet_append _ _ _ hkeyfresh
    have hnotmem : a.name ∉ (denseActs (head :: tail)).map (fun p => p.2.name) := by
      rw [show denseActs (head :: tail) = specEmit setActionF (head :: tail) 0 from rfl,
        specEmit_map_name]
      exact hname
    have hlen : (denseActs (head :: tail)).length = (head :: tail).length :=
      specEmit_length setActionF (head :: tail) 0
    have hempf : (denseActs (head :: tail)).isEmpty = false := rfl
    simp only [ActionList.add_action, ActionList.save_action_list, hlen, hempf,
      pyStrOptInt, toString_intOfNat, Bool.false_eq_true, not_false_eq_true, if_true,
      hnotmem, hdset, happend]

theorem addActions_dense :
    ∀ (rs pre : List Action) (d : List (PyKey × Action)) (c : Nat),
      ((pre ++ rs).map Action.name).Nodup →
      (addActions ⟨denseActs pre, d, c⟩ rs).action_list = denseActs (pre ++ rs) := by
  intro rs
  induction rs with
  | nil =>
    intro pre d c _
    rw [List.append_nil]
    rfl
  | cons r rs ih =>
    intro pre d c h
    have hfresh : r.name ∉ pre.map Action.name := by
      intro hmem
      rw [List.map_append] at h
      rcases List.nodup_append.mp h with ⟨_, _, hdisj⟩
      exact hdisj hmem (by simp)
    show (addActions (ActionList.add_action ⟨denseActs pre, d, c⟩ r).1 rs).action_list = _
    rw [add_action_fresh pre r d c hfresh]
    have hih := ih (pre ++ [r]) (denseActs (pre ++ [r])) (c + 1) (by
      rw [List.append_assoc]
      simpa using h)
    rw [hih, List.append_assoc]
    rfl

theorem specEmit_keys {V : Type} (setF : V → Nat → V) :
    ∀ (vs : List V) (i : Nat),
      (specEmit setF vs i).map Prod.fst
        = (List.range' i vs.length).map (fun j => PyKey.s (toString j)) := by
  intro vs
  induction vs with
  | nil => intro i; rfl
  | cons v vs ih =>
    intro i
    show PyKey.s (toString i) :: (specEmit setF vs (i + 1)).map Prod.fst = _
    rw [ih (i + 1)]
    rfl

theorem specEmit_map_id :
    ∀ (rs : List Action) (i : Nat),
      (specEmit setActionF rs i).map (fun p => p.2.id)
        = (List.range' i rs.length).map (fun j => some (j : Int)) := by
  intro rs
  induction rs with
  | nil => intro i; rfl
  | cons r rs ih =>
    intro i
    show some (i : Int) :: (specEmit setActionF rs (i + 1)).map (fun p => p.2.id) = _
    rw [ih (i + 1)]
    rfl

/-- C6: inserting `N` records with pairwise-distinct names into an empty
`ActionList` yields exactly `denseActs rs`: the keys are `str 0 .. str (N-1)`
in insertion order, each record is stored with its embedded id equal to its
position (the collection size at the time of its insertion), and the
dense-id invariant and name uniqueness hold after the sequence. -/
theorem claim_C6_dense_insert (rs : List Action) (d : List (PyKey × Action)) (c : Nat)
    (h : (rs.map Action.name).Nodup) :
    (addActions ⟨[], d, c⟩ rs).action_list = denseActs rs
    ∧ (addActions ⟨[], d, c⟩ rs).action_list.map Prod.fst
      = (List.range rs.length).map (fun j => PyKey.s (toString j))
    ∧ (addActions ⟨[], d, c⟩ rs).action_list.map (fun p => p.2.id)
      = (List.range rs.length).map (fun j => some (j : Int))
    ∧ ((addActions ⟨[], d, c⟩ rs).action_list.map (fun p => p.2.name)).Nodup := by
  have h0 : (addActions ⟨[], d, c⟩ rs).action_list = denseActs rs :=
    addActions_dense rs [] d c (by simpa using h)
  refine ⟨h0, ?_, ?_, ?_⟩
  · rw [h0, List.range_eq_range']
    exact specEmit_keys setActionF rs 0
  · rw [h0, List.range_eq_range']
    exact specEmit_map_id rs 0
  · rw [h0]
    rw [show denseActs rs = specEmit setActionF rs 0 from rfl, specEmit_map_name]
    exact h

/-- C6 witness: `claim_C6_dense_insert` for two records named `"a"`, `"b"`. -/
theorem claim_C6_witness :
    (addActions ⟨[], [], 0⟩ [sampleAction0, sampleAction1]).action_list
      = denseActs [sampleAction0, sampleAction1]
    ∧ (addActions ⟨[], [], 0⟩ [sampleAction0, sampleAction1]).action_list.map Prod.fst
      = (List.range 2).map (fun j => PyKey.s (toString j))
    ∧ (addActions ⟨[], [], 0⟩ [sampleAction0, sampleAction1]).action_list.map
        (fun p => p.2.id)
      = (List.range 2).map (fun j => some (j : Int))
    ∧ ((addActions ⟨[], [], 0⟩ [sampleAction0, sampleAction1]).action_list.map
        (fun p => p.2.name)).Nodup :=
  claim_C6_dense_insert [sampleAction0, sampleAction1] [] 0 (by decide)

/-! ### C7 — add into an empty collection -/

/-- C7 (amended): adding to an empty collection.  `ActionList.add_action`
assigns `id = 0`, inserts at key `"0"`, persists, and returns the stored
record's fields.  `ScheduleList.add_schedule`, by contrast, does *not*
assign an id on its empty-collection path: it inserts the record unchanged at
key `str(schedule.id)` for whatever id the caller supplied (the key is
`"None"` when the id is `None`), persists, and returns `None` rather than
the stored record. -/
theorem claim_C7_amended :
    (∀ (a : Action) (d : List (PyKey × Action)) (c : Nat),
      ActionList.add_action ⟨[], d, c⟩ a
        = (⟨[(PyKey.s "0", { a with id := some 0 })],
            [(PyKey.s "0", { a with id := some 0 })], c + 1⟩,
           { a with id := some 0 }, .ok (.rObj (some 0) a.name a.code)))
    ∧ (∀ (sc : Schedule) (d : List (PyKey × Schedule)) (c : Nat),
      ScheduleList.add_schedule ⟨[], d, c⟩ sc
        = (⟨[(PyKey.s (pyStrOptInt sc.id), sc)],
            [(PyKey.s (pyStrOptInt sc.id), sc)], c + 1⟩,
           sc, .ok ())) :=
  ⟨fun _ _ _ => rfl, fun _ _ _ => rfl⟩

/-- C7 counterexample: adding a schedule to an empty `ScheduleList` does not
assign `id = 0` and does not insert at key `"0"`: a schedule with `id = None`
is stored unchanged at key `"None"`, and one with `id = 7` at key `"7"` —
refuting, for `ScheduleList`, the claim that the empty-collection add assigns
`id = 0` and inserts at key `"0"` (and it returns `None`, not the stored
record). -/
theorem claim_C7_counterexample :
    (ScheduleList.add_schedule ⟨[], [], 0⟩ sampleScheduleNone).1.schedule_list
      = [(PyKey.s "None", sampleScheduleNone)]
    ∧ (ScheduleList.add_schedule ⟨[], [], 0⟩ sampleScheduleNone).2.1.id = none
    ∧ PyKey.s "None" ≠ PyKey.s "0"
    ∧ (ScheduleList.add_schedule ⟨[], [], 0⟩ sampleSchedule7).1.schedule_list
      = [(PyKey.s "7", sampleSchedule7)]
    ∧ (ScheduleList.add_schedule ⟨[], [], 0⟩ sampleSchedule7).2.1.id = some 7 :=
  ⟨rfl, rfl, by decide, rfl, rfl⟩

/-! ### C10 — mutation of the caller's record argument -/

theorem add_action_fresh_arg (s : ActionListState) (a : Action)
    (hne : s.action_list ≠ [])
    (hfresh : a.name ∉ s.action_list.map (fun p => p.2.name)) :
    (ActionList.add_action s a).2.1 = { a with id := some (s.action_list.length : Int) } := by
  have hemp : s.action_list.isEmpty = false := by
    cases hl : s.action_list with
    | nil => exact absurd hl hne
    | cons p l => rfl
  simp [ActionList.add_action, hemp, hfresh]

theorem add_task_fresh_arg (s : TaskListState) (t : Task)
    (hne : s.task_list ≠ []) (htd : ∀ v ∈ s.task_list, ∃ u, v.2 = TVal.tdict u)
    (hfresh : t.name ∉ s.task_list.map (fun p => tvalName p.2)) :
    (TaskList.add_task s t).2.1 = { t with id := some (s.task_list.length : Int) } := by
  have hemp : s.task_list.isEmpty = false := by
    cases hl : s.task_list with
    | nil => exact absurd hl hne
    | cons p l => rfl
  have hnames := collectNames_tdict s.task_list htd
  simp only [TaskList.add_task, hemp, Bool.false_eq_true, not_false_eq_true, if_true,
    hnames]
  rw [if_pos hfresh]
  split
  · rfl
  · rfl

theorem add_schedule_fresh_arg (s : ScheduleListState) (sc : Schedule)
    (hne : s.schedule_list ≠ [])
    (hfresh : sc.name ∉ s.schedule_list.map (fun p => p.2.name)) :
    (ScheduleList.add_schedule s sc).2.1
      = { sc with id := some (s.schedule_list.length : Int) } := by
  have hemp : s.schedule_list.isEmpty = false := by
    cases hl : s.schedule_list with
    | nil => exact absurd hl hne
    | cons p l => rfl
  simp [ScheduleList.add_schedule, hemp, hfresh]

/-- C10 (amended): the add operations mutate their argument, with one
exception.  `ActionList.add_action` and `TaskList.add_task` overwrite the
caller's record's `id` field with the newly assigned dense id (0 on the
empty-collection path, the current size on the fresh-name path), leaving all
other fields unchanged.  `ScheduleList.add_schedule` does so only on its
fresh-name nonempty path: adding to an *empty* `ScheduleList` leaves the
caller's record completely unchanged. -/
theorem claim_C10_amended :
    (∀ (s : ActionListState) (a : Action),
      (s.action_list = [] → (ActionList.add_action s a).2.1 = { a with id := some 0 })
      ∧ (s.action_list ≠ [] → a.name ∉ s.action_list.map (fun p => p.2.name) →
        (ActionList.add_action s a).2.1
          = { a with id := some (s.action_list.length : Int) }))
    ∧ (∀ (s : TaskListState) (t : Task),
      (s.task_list = [] → (TaskList.add_task s t).2.1 = { t with id := some 0 })
      ∧ (s.task_list ≠ [] → (∀ v ∈ s.task_list, ∃ u, v.2 = TVal.tdict u) →
        t.name ∉ s.task_list.map (fun p => tvalName p.2) →
        (TaskList.add_task s t).2.1 = { t with id := some (s.task_list.length : Int) }))
    ∧ (∀ (s : ScheduleListState) (sc : Schedule),
      (s.schedule_list = [] → (ScheduleList.add_schedule s sc).2.1 = sc)
      ∧ (s.schedule_list ≠ [] → sc.name ∉ s.schedule_list.map (fun p => p.2.name) →
        (ScheduleList.add_schedule s sc).2.1
          = { sc with id := some (s.schedule_list.length : Int) })) := by
  refine ⟨?_, ?_, ?_⟩
  · intro s a
    constructor
    · intro h
      rcases s with ⟨l, d, c⟩
      simp only at h
      subst h
      rfl
    · intro hne hfresh
      exact add_action_fresh_arg s a hne hfresh
  · intro s t
    constructor
    · intro h
      rcases s with ⟨l, d, c⟩
      simp only at h
      subst h
      rfl
    · intro hne htd hfresh
      exact add_task_fresh_arg s t hne htd hfresh
  · intro s sc
    constructor
    · intro h
      rcases s with ⟨l, d, c⟩
      simp only at h
      subst h
      rfl
    · intro hne hfresh
      exact add_schedule_fresh_arg s sc hne hfresh

/-- C10 witness: the parts of `claim_C10_amended` at concrete inputs. -/
theorem claim_C10_witness :
    ((ActionList.add_action ⟨[], [], 0⟩ sampleActionDup).2.1
      = { sampleActionDup with id := some 0 })
    ∧ ((ActionList.add_action ⟨denseFrom 0 [sampleAction0], [], 0⟩ sampleAction1).2.1
      = { sampleAction1 with id := some 1 })
    ∧ ((TaskList.add_task ⟨[(PyKey.s "0", TVal.tdict sampleTask0)], none, 0⟩
        sampleTaskNew).2.1 = { sampleTaskNew with id := some 1 })
    ∧ ((ScheduleList.add_schedule ⟨[], [], 0⟩ sampleSchedule7).2.1 = sampleSchedule7)
    ∧ ((ScheduleList.add_schedule ⟨denseSchedules [sampleSchedule0], [], 0⟩
        sampleSchedule7).2.1 = { sampleSchedule7 with id := some 1 }) :=
  ⟨((claim_C10_amended.1 ⟨[], [], 0⟩ sampleActionDup).1 rfl),
   ((claim_C10_amended.1 ⟨denseFrom 0 [sampleAction0], [], 0⟩ sampleAction1).2
      (by decide) (by decide)),
   ((claim_C10_amended.2.1 ⟨[(PyKey.s "0", TVal.tdict sampleTask0)], none, 0⟩
        sampleTaskNew).2
      (by decide)
      (by
        intro v hv
        rcases List.mem_cons.mp hv with hv | hv
        · exact ⟨sampleTask0, by rw [hv]⟩
        · exact absurd hv (List.not_mem_nil v))
      (by decide)),
   ((claim_C10_amended.2.2 ⟨[], [], 0⟩ sampleSchedule7).1 rfl),
   ((claim_C10_amended.2.2 ⟨denseSchedules [sampleSchedule0], [], 0⟩ sampleSchedule7).2
      (by decide) (by decide))⟩

/-- C10 counterexample: adding a schedule with `id = 7` to an *empty*
`ScheduleList` leaves the caller's record argument completely unchanged — its
id stays `7` instead of being overwritten with the newly assigned dense id
`0`, refuting the claim that every add overwrites the argument's id. -/
theorem claim_C10_counterexample :
    (ScheduleList.add_schedule ⟨[], [], 0⟩ sampleSchedule7).2.1 = sampleSchedule7
    ∧ sampleSchedule7.id = some 7
    ∧ (ScheduleList.add_schedule ⟨[], [], 0⟩ sampleSchedule7).2.1.id ≠ some 0 :=
  ⟨rfl, rfl, by decide⟩

/-! ### C4 — update_task has no range check -/

theorem dictSet_tobj_all_false (d : List (PyKey × TVal)) (k : PyKey) (t : Task) :
    ((dictSet d k (TVal.tobj t)).all (fun p => serializableT p.2)) = false := by
  unfold dictSet
  by_cases hany : (d.any (fun p => p.1 == k)) = true
  · rw [if_pos hany, List.all_eq_false]
    refine ⟨(k, TVal.tobj t), ?_, by simp [serializableT]⟩
    rcases List.any_eq_true.mp hany with ⟨q, hq, hqk⟩
    exact List.mem_map.mpr ⟨q, hq, by simp [hqk]⟩
  · rw [if_neg hany, List.all_eq_false]
    exact ⟨(k, TVal.tobj t), by simp, by simp [serializableT]⟩

/-- C4 (amended): `TaskList.update_task` performs no range check.  For *any*
id — in range or one past the end alike — it unconditionally writes the raw
`Task` object under the *integer* dict key `index` (growing the collection
by a fresh entry whenever that integer key is absent, which is always the
case on a dense string-keyed collection), and then raises `TypeError` when
`save_task_list` tries to `json.dump` the pydantic object, leaving the
backing file unusable.  It never returns InvalidId, and the in-memory
collection is changed rather than left unchanged. -/
theorem claim_C4_amended (s : TaskListState) (index : Int) (t : Task) :
    TaskList.update_task s index t
      = (⟨dictSet s.task_list (PyKey.i index) (TVal.tobj t), none, s.saveCount⟩,
         .error .typeErr) := by
  have hall := dictSet_tobj_all_false s.task_list (PyKey.i index) t
  unfold TaskList.update_task TaskList.save_task_list
  show (match (if ((dictSet s.task_list (PyKey.i index) (TVal.tobj t)).all
        (fun p => serializableT p.2)) = true then
      (⟨dictSet s.task_list (PyKey.i index) (TVal.tobj t),
        some (dictSet s.task_list (PyKey.i index) (TVal.tobj t)), s.saveCount + 1⟩,
       Except.ok ())
    else
      (⟨dictSet s.task_list (PyKey.i index) (TVal.tobj t), none, s.saveCount⟩,
       Except.error PyErr.typeErr) : TaskListState × Except PyErr Unit) with
    | (s, Except.ok a) => (s, Except.ok (TResp.rTask t))
    | (s, Except.error e) => (s, Except.error e)) = _
  simp only [hall, Bool.false_eq_true, if_false]

/-- C4 counterexample: on the dense one-element collection
`{"0": sampleTask0}` (size 1, valid ids `{0}`), `update_task 1 sampleTask1` —
the id one past the end — does not return InvalidId and does not leave the
collection unchanged: it appends a new entry under the integer key `1`
(collection size becomes 2) and raises `TypeError` while persisting. -/
theorem claim_C4_counterexample :
    TaskList.update_task ⟨denseTasks [sampleTask0], some (denseTasks [sampleTask0]), 1⟩ 1
        sampleTask1
      = (⟨[(PyKey.s "0", TVal.tdict sampleTask0), (PyKey.i 1, TVal.tobj sampleTask1)],
          none, 1⟩, .error .typeErr)
    ∧ (TaskList.update_task ⟨denseTasks [sampleTask0], some (denseTasks [sampleTask0]), 1⟩ 1
        sampleTask1).1.task_list.length = 2
    ∧ (denseTasks [sampleTask0]).length = 1 :=
  ⟨rfl, rfl, rfl⟩

/-! ### C8 — synchronous persistence -/

theorem save_task_list_ok_disk (s1 s2 : TaskListState) (u : Unit)
    (h : TaskList.save_task_list s1 = (s2, Except.ok u)) :
    s2.disk = some s2.task_list := by
  unfold TaskList.save_task_list at h
  by_cases hc : (s1.task_list.all (fun p => serializableT p.2)) = true
  · rw [if_pos hc] at h
    injection h with h1 h2
    rw [← h1]
  · rw [if_neg hc] at h
    injection h with h1 h2
    exact Except.noConfusion h2

/-- C8 (amended): mutations and the backing file.  `ActionList.add_action`
and `ScheduleList.add_schedule` always rewrite the backing file before
returning, leaving on-disk contents equal to the in-memory collection.
`ActionList.delete_action` either rewrites the file to match the in-memory
state or returns with the state (memory *and* disk) completely unchanged —
the out-of-range early return skips the write.  `TaskList.add_task` and
`TaskList.delete_task` leave the file equal to the in-memory collection
whenever they return normally; every path that skips or aborts the write
raises instead of returning. -/
theorem claim_C8_amended :
    (∀ (s : ActionListState) (a : Action),
      (ActionList.add_action s a).1.saveCount = s.saveCount + 1
      ∧ (ActionList.add_action s a).1.disk = (ActionList.add_action s a).1.action_list)
    ∧ (∀ (s : ActionListState) (k : Int),
      (ActionList.delete_action s k).1.disk = (ActionList.delete_action s k).1.action_list
      ∨ (ActionList.delete_action s k).1 = s)
    ∧ (∀ (s : TaskListState) (t : Task),
      (TaskList.add_task s t).1.disk = some (TaskList.add_task s t).1.task_list
      ∨ (∃ e, (TaskList.add_task s t).2.2 = Except.error e))
    ∧ (∀ (s : TaskListState) (k : Int),
      (TaskList.delete_task s k).1.disk = some (TaskList.delete_task s k).1.task_list
      ∨ (∃ e, (TaskList.delete_task s k).2 = Except.error e))
    ∧ (∀ (s : ScheduleListState) (sc : Schedule),
      (ScheduleList.add_schedule s sc).1.saveCount = s.saveCount + 1
      ∧ (ScheduleList.add_schedule s sc).1.disk
        = (ScheduleList.add_schedule s sc).1.schedule_list) := by
  refine ⟨?_, ?_, ?_, ?_, ?_⟩
  · intro s a
    simp only [ActionList.add_action, ActionList.save_action_list]
    repeat' split
    all_goals exact ⟨rfl, rfl⟩
  · intro s k
    simp only [ActionList.delete_action, ActionList.save_action_list]
    repeat' split
    all_goals first
      | (left; rfl)
      | (right; rfl)
  · intro s t
    simp only [TaskList.add_task]
    repeat' split
    all_goals first
      | (right; exact ⟨_, rfl⟩)
      | (rename_i s2 u heq
         left
         exact save_task_list_ok_disk _ s2 u heq)
  · intro s k
    simp only [TaskList.delete_task]
    repeat' split
    all_goals first
      | (right; exact ⟨_, rfl⟩)
      | (rename_i s2 u heq
         left
         exact save_task_list_ok_disk _ s2 u heq)
  · intro s sc
    simp only [ScheduleList.add_schedule, ScheduleList.save_schedule_list]
    repeat' split
    all_goals exact ⟨rfl, rfl⟩

/-- C8 counterexample: `ActionList.delete_action` with an out-of-range id
returns (with the not-found sentinel) *without* rewriting the backing file:
`saveCount` stays 3 and the stale on-disk copy (`[]`, different from the
in-memory collection) is left as is — refuting the claim that every
collection-store mutation call that returns rewrites the backing file before
returning. -/
theorem claim_C8_counterexample :
    ActionList.delete_action ⟨denseFrom 0 [sampleAction1], [], 3⟩ 5
      = (⟨denseFrom 0 [sampleAction1], [], 3⟩, .ok (.rData "Action does not exist"))
    ∧ (ActionList.delete_action ⟨denseFrom 0 [sampleAction1], [], 3⟩ 5).1.saveCount = 3
    ∧ (ActionList.delete_action ⟨denseFrom 0 [sampleAction1], [], 3⟩ 5).1.disk = []
    ∧ (ActionList.delete_action ⟨denseFrom 0 [sampleAction1], [], 3⟩ 5).1.disk
      ≠ (ActionList.delete_action ⟨denseFrom 0 [sampleAction1], [], 3⟩ 5).1.action_list :=
  ⟨rfl, rfl, rfl, by decide⟩

/-! ### C3 — single-record store/load round trip -/

/-- C3 (code bug, evaluated at the failing input): `store_image` writes to
`<resources_dir>/images/<id>.json` but `load_image` reads from
`<resources_dir>/<id>.json` — a different path.  Storing `sampleImage`
(id `"img0"`) into an empty filesystem and then loading `"img0"` returns the
file-missing sentinel `{}` (modelled as `none`) instead of the stored
record: the store/load round trip fails for every record, because the two
paths can never coincide. -/
theorem claim_C3_store_load_path_bug :
    (ImageResource.store_image [] sampleImage).1
      = [(pathJoin image_dir "img0.json", sampleImage)]
    ∧ ImageResource.load_image (ImageResource.store_image [] sampleImage).1 "img0" = none
    ∧ pathJoin image_dir "img0.json" ≠ pathJoin resources_dir "img0.json" :=
  ⟨rfl, rfl, by decide⟩

end Models
